import Mathlib

/-!
Shallow embedding of the query-building core of the `go-db-store` repository
(package `store`, files `sql.go`, `store.go`), together with proofs about it.

Go `map[string]any` filter mappings are modelled as association lists
`List (String × Value)` with pairwise-distinct keys; Go's dynamically typed
`any` values are modelled by the closed inductive `Value` below, which covers
every shape the translated code inspects (scalars, the typed slices the code
special-cases, other slices reached via reflection, and struct values used by
the Mongo upsert path).
-/

namespace GoDbStore

/-- Model of Go `any` values as they flow through the store layer.
`vListAny` models `[]any`, `vListInt` models `[]int`, `vListStr` models
`[]string`, `vListOther` models any other slice type (reached via reflection
in the source), and `vDoc` models a struct value (for reflection field
lookup in the Mongo store). -/
inductive Value where
  | vInt : Int → Value
  | vStr : String → Value
  | vBool : Bool → Value
  | vNull : Value
  | vListAny : List Value → Value
  | vListInt : List Int → Value
  | vListStr : List String → Value
  | vListOther : List Value → Value
  | vDoc : List (String × Value) → Value

/-- A Go `map[string]any`, modelled as an association list.  Theorems that
depend on map semantics assume the keys are pairwise distinct. -/
abbrev Filters := List (String × Value)

/-- Go map indexing `filters[key]` (comma-ok form collapsed: in the source the
key is always taken from the map itself, so the lookup always succeeds). -/
def lookupKV (k : String) : Filters → Option Value
  | [] => none
  | p :: rest => if p.1 = k then some p.2 else lookupKV k rest

/-- Go `strings.Split(key, "__")`: greedy left-to-right split on the
non-overlapping occurrences of the two-character separator `__`. -/
def splitUU : List Char → List (List Char)
  | [] => [[]]
  | '_' :: '_' :: rest => [] :: splitUU rest
  | c :: rest =>
    match splitUU rest with
    | h :: t => (c :: h) :: t
    | [] => [[c]]

/-- Go `strings.Contains(key, "__")`. -/
def hasUU : List Char → Bool
  | [] => false
  | '_' :: '_' :: _ => true
  | _ :: rest => hasUU rest

/-- The `switch parts[1]` table of `buildWhereClause` (sql.go lines 987-1011):
maps a recognized operator suffix to its SQL operator token; any other
suffix leaves the operator at its initial value `=`. -/
def opOfSuffix : String → String
  | "like" => "LIKE"
  | "ilike" => "ILIKE_COMPAT"
  | "not_like" => "NOT LIKE"
  | "gt" => ">"
  | "lt" => "<"
  | "gte" => ">="
  | "lte" => "<="
  | "in" => "IN"
  | "not" => "!="
  | "is_null" => "IS NULL"
  | "is_not_null" => "IS NOT NULL"
  | _ => "="

/-- Field/operator derivation of `buildWhereClause` (sql.go lines 980-1012):
operator starts at `=` and field at the raw key; when the key contains `__`
it is split and `parts[0]`/`parts[1]` supply the field and the suffix. -/
def deriveFieldOp (key : String) : String × String :=
  match splitUU key.data with
  | f :: s :: _ => (⟨f⟩, opOfSuffix ⟨s⟩)
  | _ => (key, "=")

/-- Go `strings.Join(xs, sep)`. -/
def intercalateGo (sep : String) : List String → String
  | [] => ""
  | [x] => x
  | x :: y :: rest => x ++ sep ++ intercalateGo sep (y :: rest)

/-- The slice dispatch of the `IN` branch (sql.go lines 1027-1058): `[]any`
directly, `[]int` and `[]string` by elementwise conversion, any other slice
via reflection; a non-slice value yields `none` (the single-value fallback). -/
def elemsOfSlice : Value → Option (List Value)
  | .vListAny l => some l
  | .vListInt l => some (l.map Value.vInt)
  | .vListStr l => some (l.map Value.vStr)
  | .vListOther l => some l
  | _ => none

/-- One iteration of the `buildWhereClause` loop after field/operator
derivation (sql.go lines 1014-1077): produces the condition text and the
parameters it contributes, in order. -/
def conditionFor (field op : String) (value : Value) : String × List Value :=
  if op = "IS NULL" ∨ op = "IS NOT NULL" then
    (field ++ " " ++ op, [])
  else if op = "ILIKE_COMPAT" then
    ("UPPER(" ++ field ++ ") LIKE UPPER(?)", [value])
  else if op = "IN" then
    match elemsOfSlice value with
    | some elems =>
      (field ++ " " ++ op ++ " (" ++
        intercalateGo ", " (elems.map (fun _ => "?")) ++ ")", elems)
    | none => (field ++ " " ++ op ++ " (?)", [value])
  else
    (field ++ " " ++ op ++ " ?", [value])

/-- The per-key conditions of `buildWhereClause`, in sorted key order
(sql.go lines 969-1078): keys are collected, sorted with `sort.Strings`,
and each key is looked up in the map and translated. -/
def clauseConds (filters : Filters) : List (String × List Value) :=
  (List.insertionSort (fun a b => a ≤ b) (filters.map Prod.fst)).map
    (fun key =>
      let fo := deriveFieldOp key
      conditionFor fo.1 fo.2 ((lookupKV key filters).getD Value.vNull))

/-- `SQLStore.buildWhereClause` (sql.go lines 964-1081): empty or nil input
yields an empty clause and an empty parameter list; otherwise the sorted
per-key conditions are joined with ` AND ` after a ` WHERE ` prefix and the
per-key parameters are concatenated in the same order. -/
def buildWhereClause (filters : Filters) : String × List Value :=
  if filters.length = 0 then ("", [])
  else
    let conds := clauseConds filters
    (" WHERE " ++ intercalateGo " AND " (conds.map Prod.fst),
     (conds.map Prod.snd).flatten)

/-- Number of `?` placeholder characters in a clause string. -/
def countQ (s : String) : Nat := s.data.count '?'

/-- `enum.DatabaseDriver`: the five drivers the store dispatches on. -/
inductive DatabaseDriver where
  | mysql | mariadb | sqlite | postgres | oracle
deriving DecidableEq

/-- `store.FindOptions` (store.go lines 51-56); Go `int64` modelled as `Int`. -/
structure FindOptions where
  Page : Int
  Limit : Int
  OrderBy : String
  SortBy : String
deriving DecidableEq

/-- `FindOptions.Initialize` (store.go lines 58-71): a `Page` below 1 becomes
1, a negative `Limit` becomes 10, empty `SortBy` becomes `createdAt`, empty
`OrderBy` becomes `ASC`. -/
def initFindOptions (o : FindOptions) : FindOptions :=
  let o := if o.Page < 1 then { o with Page := 1 } else o
  let o := if o.Limit < 0 then { o with Limit := 10 } else o
  let o := if o.SortBy = "" then { o with SortBy := "createdAt" } else o
  if o.OrderBy = "" then { o with OrderBy := "ASC" } else o

/-- `page.Skip` : `(page - 1) * limit`. -/
def pageSkip (page limit : Int) : Int := (page - 1) * limit

/-- The query-construction part of `SQLStore.FindAll` (sql.go lines 147-164):
normalize the options, build the WHERE clause, and append pagination only
when `Limit > 0` (Oracle uses OFFSET/FETCH with skip-then-limit parameter
order, the others LIMIT/OFFSET with limit-then-skip order). -/
def findAllQuery (driver : DatabaseDriver) (tableName : String)
    (f : Filters) (opts : FindOptions) : String × List Value :=
  let opts := initFindOptions opts
  let wc := buildWhereClause f
  let query := "SELECT * FROM " ++ tableName ++ wc.1
  if opts.Limit > 0 then
    let skip := pageSkip opts.Page opts.Limit
    if driver = .oracle then
      (query ++ " OFFSET :1 ROWS FETCH FIRST :2 ROWS ONLY",
       wc.2 ++ [Value.vInt skip, Value.vInt opts.Limit])
    else
      (query ++ " LIMIT ? OFFSET ?",
       wc.2 ++ [Value.vInt opts.Limit, Value.vInt skip])
  else
    (query, wc.2)

/-- `store.EntityFieldsToUpdate`: the per-entry batch update spec. -/
structure EntityFieldsToUpdate where
  Filter : Filters
  Fields : List (String × Value)

/-- `store.BulkWriteResult` (counts only; `UpsertedIDs` is not needed by the
claims about the SQL store). -/
structure BulkWriteResult where
  InsertedCount : Int := 0
  MatchedCount : Int := 0
  ModifiedCount : Int := 0
  DeletedCount : Int := 0
  UpsertedCount : Int := 0
deriving DecidableEq

/-- The statement built for one batch entry of `SQLStore.UpdateMany`
(sql.go lines 415-447): SET clauses over the sorted field keys plus an
unconditional `updated_at = ?` bound to `now`, then the WHERE clause;
parameters are the SET values followed by the WHERE values. -/
def buildUpdateQuery (tableName : String) (now : Value)
    (fb : EntityFieldsToUpdate) : String × List Value :=
  let fieldKeys := List.insertionSort (fun a b => a ≤ b) (fb.Fields.map Prod.fst)
  let setClauses := fieldKeys.map (fun key => key ++ " = ?") ++ ["updated_at = ?"]
  let setValues := fieldKeys.map
    (fun key => (lookupKV key fb.Fields).getD Value.vNull) ++ [now]
  let wc := buildWhereClause fb.Filter
  ("UPDATE " ++ tableName ++ " SET " ++ intercalateGo ", " setClauses ++ wc.1,
   setValues ++ wc.2)

/-- The loop of `SQLStore.UpdateMany` (sql.go lines 404-458), threading the
transaction-local state `tx` through an abstract driver `exec` (which
returns the new state and the statement's rows-affected count).  Entry
validation happens at each entry's turn, before its statement is issued;
a validation failure surfaces as `Except.error` with the code's message. -/
def updateManyLoop {σ : Type} (exec : σ → String → List Value → σ × Int)
    (tableName : String) (now : Value) :
    σ → Nat → Int → Int → List EntityFieldsToUpdate → Except String (Int × Int × σ)
  | tx, _, matched, modified, [] => .ok (matched, modified, tx)
  | tx, i, matched, modified, fb :: rest =>
    if fb.Filter.length = 0 then
      .error ("filtro é obrigatório para update " ++ toString i)
    else if fb.Fields.length = 0 then
      .error ("campos para atualização são obrigatórios para update " ++ toString i)
    else
      let q := buildUpdateQuery tableName now fb
      let step := exec tx q.1 q.2
      updateManyLoop exec tableName now step.1 (i + 1)
        (matched + step.2) (modified + step.2) rest

/-- `SQLStore.UpdateMany` (sql.go lines 384-468) over an abstract database
state `σ`: the whole batch runs in one transaction, so an error anywhere
rolls back to the caller's state `db`, while success commits the threaded
state.  Driver-level statement failures are outside this model (`exec` is
total); the validation and rollback logic is the code's. -/
def UpdateMany {σ : Type} (exec : σ → String → List Value → σ × Int)
    (tableName : String) (now : Value) (db : σ)
    (fd : List EntityFieldsToUpdate) : Except String BulkWriteResult × σ :=
  if fd.length = 0 then (.error "nenhum update fornecido", db)
  else
    match updateManyLoop exec tableName now db 0 0 0 fd with
    | .error msg => (.error msg, db)
    | .ok (matched, modified, tx) =>
      (.ok { MatchedCount := matched, ModifiedCount := modified }, tx)

/-- Go error values: `base` is `fmt.Errorf`/`errors.New` without `%w`;
`wrapped pre cause post` is `fmt.Errorf` whose format is `pre` ++ `%w` ++
`post` (with any `%v` arguments already rendered into `pre`/`post`), so the
unwrap chain of `wrapped pre cause post` continues at `cause`. -/
inductive GoErr where
  | base : String → GoErr
  | wrapped : String → GoErr → String → GoErr
deriving DecidableEq

/-- `err.Error()`: the rendered message. -/
def GoErr.render : GoErr → String
  | .base s => s
  | .wrapped pre e post => pre ++ e.render ++ post

/-- `errors.Is(e, target)`: walk the unwrap chain. -/
def GoErr.isErr : GoErr → GoErr → Bool
  | e, target =>
    if e = target then true
    else
      match e with
      | .wrapped _ cause _ => cause.isErr target
      | .base _ => false

/-- Which terminal operation `SQLStore.WithTransaction` performed on the
transaction handle. -/
inductive TxAction where
  | noTx | rolledBack | committed
deriving DecidableEq

/-- `SQLStore.WithTransaction` (sql.go lines 36-62), with the driver's
begin/rollback/commit outcomes supplied as inputs and the unit of work's
outcome as `fnRes` (panic recovery is not modelled): on `fn` error the
transaction is rolled back and the error is wrapped as
`"transaction error: %w"`, with a failed rollback rendered into the message
after it; on success the commit error, if any, is wrapped, otherwise the
result is returned. -/
def withTransaction {α : Type} (beginErr : Option GoErr)
    (fnRes : Except GoErr α) (rollbackErr : Option GoErr)
    (commitErr : Option GoErr) : TxAction × Except GoErr α :=
  match beginErr with
  | some e => (.noTx, .error e)
  | none =>
    match fnRes with
    | .error err =>
      match rollbackErr with
      | some rbErr =>
        (.rolledBack,
         .error (.wrapped "transaction error: " err
           (", rollback error: " ++ rbErr.render)))
      | none => (.rolledBack, .error (.wrapped "transaction error: " err ""))
    | .ok result =>
      match commitErr with
      | some e => (.committed, .error (.wrapped "erro ao fazer commit: " e ""))
      | none => (.committed, .ok result)

/-- `store.StoreUpsertFilter` (store.go lines 18-21). -/
structure StoreUpsertFilter where
  UpsertFieldKey : String
  UpsertBsonKey : String

/-- Go `strings.Split(key, ".")`. -/
def splitDot : List Char → List (List Char)
  | [] => [[]]
  | '.' :: rest => [] :: splitDot rest
  | c :: rest =>
    match splitDot rest with
    | h :: t => (c :: h) :: t
    | [] => [[c]]

/-- `reflect.Value.FieldByName` on a struct value: looks the name up among
the struct's fields; an invalid (absent) field is `none`. -/
def fieldByName (v : Value) (name : String) : Option Value :=
  match v with
  | .vDoc fields => lookupKV name fields
  | _ => none

/-- `store.getFieldValue` (store.go lines 493-501): walk the dot-separated
path through the entity's fields; an invalid field aborts with the code's
error message. -/
def getFieldValue (key : String) (value : Value) : Except String Value :=
  (splitDot key.data).foldlM
    (fun v k =>
      match fieldByName v ⟨k⟩ with
      | some v' => pure v'
      | none => Except.error "invalid value")
    value

/-- `mongoStore.convertStoreUpsertFilterToBsonD` (store.go lines 503-518):
for each conflict pair read the entity field named `UpsertFieldKey` and emit
a BSON element keyed by `UpsertBsonKey`. -/
def convertStoreUpsertFilterToBsonD (value : Value)
    (filters : List StoreUpsertFilter) : Except String (List (String × Value)) :=
  filters.foldlM
    (fun acc filter =>
      match getFieldValue filter.UpsertFieldKey value with
      | .error _ =>
        Except.error ("invalid upsert field name from " ++ filter.UpsertFieldKey)
      | .ok fv => pure (acc ++ [(filter.UpsertBsonKey, fv)]))
    []

/-- The conflict-filter construction of `mongoStore.Upsert` (store.go lines
339-351): an empty conflict list defaults to the single pair
`{UpsertFieldKey: "_id", UpsertBsonKey: "ID"}`, which is then resolved
against the entity by `convertStoreUpsertFilterToBsonD`. -/
def mongoUpsertFilter (e : Value) (f : List StoreUpsertFilter) :
    Except String (List (String × Value)) :=
  let f := if f.length = 0 then [⟨"_id", "ID"⟩] else f
  convertStoreUpsertFilterToBsonD e f

/-- The conflict-filter construction of `mongoStore.UpsertMany` (store.go
lines 388-395): the empty-list default is `{UpsertFieldKey: "ID",
UpsertBsonKey: "_id"}`. -/
def mongoUpsertManyFilter (e : Value) (f : List StoreUpsertFilter) :
    Except String (List (String × Value)) :=
  let f := if f.length = 0 then [⟨"ID", "_id"⟩] else f
  convertStoreUpsertFilterToBsonD e f

/-- The conflict-field computation of `SQLStore.Upsert` (sql.go lines
483-502): an empty conflict list defaults to the single pair for the
configured primary key, and an empty `UpsertFieldKey` inside a pair also
falls back to the primary key. -/
def sqlConflictFields (primaryKey : String) (f : List StoreUpsertFilter) :
    List String :=
  let f := if f.length = 0 then [⟨primaryKey, "ID"⟩] else f
  f.map (fun filter =>
    if filter.UpsertFieldKey = "" then primaryKey else filter.UpsertFieldKey)

/-! ### Helper lemmas about the split on `__` -/

theorem splitUU_ne_nil (l : List Char) : splitUU l ≠ [] := by
  induction l using splitUU.induct with
  | case1 => simp [splitUU]
  | case2 rest ih => simp [splitUU]
  | case3 c rest hne h t heq ih =>
    rw [splitUU.eq_def]
    split
    · simp
    · simp
    · split <;> simp
  | case4 c rest hne heq ih => exact absurd heq ih

theorem hasUU_cons (c : Char) (rest : List Char)
    (h : ∀ r : List Char, c = '_' → rest = '_' :: r → False) :
    hasUU (c :: rest) = hasUU rest := by
  rw [hasUU.eq_def]
  split
  · simp_all
  · rename_i heq
    injection heq with h1 h2
    subst h1
    cases rest with
    | nil => simp_all
    | cons d r =>
      injection h2 with h3 h4
      exact absurd rfl (fun hc => h r hc (by rw [h3, h4]))
  · rename_i c' rest' hne heq
    injection heq with h1 h2
    rw [h2]

theorem splitUU_eq_single (l : List Char) (h : hasUU l = false) :
    splitUU l = [l] := by
  induction l using splitUU.induct with
  | case1 => simp [splitUU]
  | case2 rest ih => simp [hasUU] at h
  | case3 c rest hne hd tl heq ih =>
    rw [hasUU_cons c rest hne] at h
    rw [splitUU.eq_def]
    split
    · rename_i heq2; exact absurd heq2 (by simp)
    · rename_i r heq2
      injection heq2 with h1 h2
      exact (hne r h1 h2).elim
    · rename_i c' rest' hne2 heq2
      injection heq2 with h1 h2
      subst h1; subst h2
      rw [ih h]
  | case4 c rest hne heq ih => exact absurd heq (splitUU_ne_nil rest)

theorem splitUU_append (f s : List Char) (h : hasUU (f ++ ['_']) = false) :
    splitUU (f ++ '_' :: '_' :: s) = f :: splitUU s := by
  induction f with
  | nil => simp [splitUU]
  | cons c f' ih =>
    have hside : ∀ r : List Char, c = '_' → f' ++ ['_'] = '_' :: r → False := by
      intro r hc hr
      cases f' with
      | nil => rw [hc] at h; simp [hasUU] at h
      | cons d f'' =>
        injection hr with h1 h2
        rw [hc, h1] at h
        simp [hasUU] at h
    have h' : hasUU (f' ++ ['_']) = false := by
      rw [List.cons_append, hasUU_cons c (f' ++ ['_']) hside] at h
      exact h
    have hne : ∀ r : List Char, c = '_' → (f' ++ '_' :: '_' :: s) = '_' :: r → False := by
      intro r hc hr
      cases f' with
      | nil => rw [hc] at h; simp [hasUU] at h
      | cons d f'' =>
        injection hr with h1 h2
        rw [hc, h1] at h
        simp [hasUU] at h
    rw [List.cons_append, splitUU.eq_def]
    split
    · rename_i heq2; exact absurd heq2 (by simp)
    · rename_i r heq2
      injection heq2 with h1 h2
      exact (hne r h1 h2).elim
    · rename_i c' rest' hne2 heq2
      injection heq2 with h1 h2
      subst h1
      rw [← h2, ih h']

theorem mem_splitUU_mem (l : List Char) (p : List Char) (hp : p ∈ splitUU l)
    (c : Char) (hc : c ∈ p) : c ∈ l := by
  induction l using splitUU.induct generalizing p with
  | case1 => simp [splitUU] at hp; subst hp; simp at hc
  | case2 rest ih =>
    simp only [splitUU, List.mem_cons] at hp
    rcases hp with h | h
    · subst h; simp at hc
    · have := ih p h hc
      simp [this]
  | case3 ch rest hne hd tl heq ih =>
    rw [splitUU.eq_def] at hp
    split at hp
    · rename_i heq2; exact absurd heq2 (by simp)
    · rename_i r heq2
      injection heq2 with h1 h2
      exact (hne r h1 h2).elim
    · rename_i c' rest' hne2 heq2
      injection heq2 with h1 h2
      subst h1
      rw [← h2] at hp
      rw [heq] at hp
      simp only [List.mem_cons] at hp
      rcases hp with h | h
      · subst h
        rcases List.mem_cons.mp hc with h | h
        · simp [h]
        · have := ih hd (by rw [heq]; exact List.mem_cons_self _ _) h
          exact List.mem_cons_of_mem _ this
      · have := ih p (by rw [heq]; exact List.mem_cons_of_mem _ h) hc
        exact List.mem_cons_of_mem _ this
  | case4 c' rest hne heq ih => exact absurd heq (splitUU_ne_nil rest)

/-! ### Placeholder counting -/

theorem countQ_append (a b : String) : countQ (a ++ b) = countQ a + countQ b := by
  simp [countQ, String.data_append, List.count_append]

theorem countQ_intercalateGo (sep : String) (hsep : countQ sep = 0) :
    ∀ xs : List String, countQ (intercalateGo sep xs) = (xs.map countQ).sum
  | [] => by simp [intercalateGo, countQ]
  | [x] => by simp [intercalateGo]
  | x :: y :: ys => by
    rw [intercalateGo, countQ_append, countQ_append, hsep,
        countQ_intercalateGo sep hsep (y :: ys)]
    simp [Nat.add_assoc]

theorem countQ_opOfSuffix (s : String) : countQ (opOfSuffix s) = 0 := by
  unfold opOfSuffix
  split <;> decide

theorem countQ_deriveFieldOp_fst (key : String) (h : countQ key = 0) :
    countQ (deriveFieldOp key).1 = 0 := by
  unfold deriveFieldOp
  split
  · rename_i f s rest heq
    simp only [countQ, List.count_eq_zero] at h ⊢
    intro hmem
    exact h (mem_splitUU_mem key.data f
      (by rw [heq]; exact List.mem_cons_self _ _) _ hmem)
  · exact h

theorem countQ_deriveFieldOp_snd (key : String) :
    countQ (deriveFieldOp key).2 = 0 := by
  unfold deriveFieldOp
  split
  · exact countQ_opOfSuffix _
  · show countQ "=" = 0
    decide

theorem countQ_conditionFor (field op : String) (v : Value)
    (hf : countQ field = 0) (hop : countQ op = 0) :
    countQ (conditionFor field op v).1 = (conditionFor field op v).2.length := by
  have hsp : countQ " " = 0 := by decide
  have hq : countQ " ?" = 1 := by decide
  have hopen : countQ " (" = 0 := by decide
  have hclose : countQ ")" = 0 := by decide
  have hqm : countQ "?" = 1 := by decide
  have hupper : countQ "UPPER(" = 0 := by decide
  have hupper2 : countQ ") LIKE UPPER(?)" = 1 := by decide
  have hinq : countQ " (?)" = 1 := by decide
  unfold conditionFor
  split
  · simp [countQ_append, hf, hop, hsp]
  · split
    · simp [countQ_append, hf, hupper, hupper2]
    · split
      · split
        · rename_i elems heq
          have hsum : (elems.map (countQ ∘ fun _ => "?")).sum = elems.length := by
            clear heq
            induction elems with
            | nil => simp
            | cons e es ih => simp [hqm, ih, Nat.add_comm]
          simp only [countQ_append, hf, hop, hsp, hopen, hclose,
            countQ_intercalateGo ", " (by decide) (elems.map (fun _ => "?"))]
          simp only [List.map_map]
          simp [hsum]
        · simp [countQ_append, hf, hop, hsp, hinq]
      · simp [countQ_append, hf, hop, hsp, hq]

/-! ### Clause structure lemmas -/

theorem buildWhereClause_eq (filters : Filters) (h : filters.length ≠ 0) :
    buildWhereClause filters =
      (" WHERE " ++ intercalateGo " AND " ((clauseConds filters).map Prod.fst),
       ((clauseConds filters).map Prod.snd).flatten) := by
  unfold buildWhereClause
  simp [h]

theorem clauseConds_mem (filters : Filters) (c : String × List Value)
    (hc : c ∈ clauseConds filters) :
    ∃ key, key ∈ filters.map Prod.fst ∧
      c = conditionFor (deriveFieldOp key).1 (deriveFieldOp key).2
            ((lookupKV key filters).getD Value.vNull) := by
  unfold clauseConds at hc
  simp only [List.mem_map] at hc
  obtain ⟨key, hkey, hc⟩ := hc
  exact ⟨key, (List.perm_insertionSort _ _).mem_iff.mp hkey, hc.symm⟩

theorem countQ_clauseConds (filters : Filters)
    (h : ∀ p ∈ filters, countQ p.1 = 0) (c : String × List Value)
    (hc : c ∈ clauseConds filters) : countQ c.1 = c.2.length := by
  obtain ⟨key, hkey, hc⟩ := clauseConds_mem filters c hc
  obtain ⟨p, hp, hpk⟩ := List.mem_map.mp hkey
  have hk : countQ key = 0 := hpk ▸ h p hp
  subst hc
  exact countQ_conditionFor _ _ _ (countQ_deriveFieldOp_fst key hk)
    (countQ_deriveFieldOp_snd key)

/-! ### Lookup and determinism lemmas -/

theorem lookupKV_perm (l₁ l₂ : Filters) (h : List.Perm l₁ l₂)
    (hnd : (l₁.map Prod.fst).Nodup) (k : String) :
    lookupKV k l₁ = lookupKV k l₂ := by
  induction h with
  | nil => rfl
  | cons p hperm ih =>
    simp only [List.map_cons, List.nodup_cons] at hnd
    simp only [lookupKV]
    rw [ih hnd.2]
  | swap p q l =>
    simp only [List.map_cons, List.nodup_cons, List.mem_cons] at hnd
    have hne : q.1 ≠ p.1 := fun hcontra => hnd.1 (Or.inl hcontra)
    simp only [lookupKV]
    by_cases hq : q.1 = k
    · by_cases hp : p.1 = k
      · exact absurd (hq.trans hp.symm) hne
      · simp [hq, hp]
    · by_cases hp : p.1 = k <;> simp [hq, hp]
  | trans h₁ h₂ ih₁ ih₂ =>
    rename_i l₁' l₂' l₃'
    have hnd₂ : (l₂'.map Prod.fst).Nodup := ((h₁.map Prod.fst).nodup_iff).mp hnd
    rw [ih₁ hnd, ih₂ hnd₂]

theorem sortedKeys_perm (l₁ l₂ : Filters) (h : List.Perm l₁ l₂) :
    List.insertionSort (fun a b => a ≤ b) (l₁.map Prod.fst) =
      List.insertionSort (fun a b => a ≤ b) (l₂.map Prod.fst) :=
  List.eq_of_perm_of_sorted
    (((List.perm_insertionSort _ _).trans (h.map Prod.fst)).trans
      (List.perm_insertionSort _ _).symm)
    (List.sorted_insertionSort _ _) (List.sorted_insertionSort _ _)

theorem clauseConds_perm (l₁ l₂ : Filters) (h : List.Perm l₁ l₂)
    (hnd : (l₁.map Prod.fst).Nodup) :
    clauseConds l₁ = clauseConds l₂ := by
  unfold clauseConds
  rw [sortedKeys_perm l₁ l₂ h]
  apply List.map_congr_left
  intro key _
  rw [lookupKV_perm l₁ l₂ h hnd key]

/-! ### Claim theorems -/

/-- Claim C1 (counterexample): the claim quantifies over every filter mapping, but
a filter key containing the character `?` is interpolated verbatim into the
clause, so the clause for `{"a?": 1}` is ` WHERE a? = ?` — two `?`
characters for a single bound parameter. -/
theorem whereClause_question_in_key_cx :
    countQ (buildWhereClause [("a?", Value.vInt 1)]).1 ≠
      (buildWhereClause [("a?", Value.vInt 1)]).2.length ∧
    (buildWhereClause [("a?", Value.vInt 1)]).1 = " WHERE a? = ?" := by
  exact ⟨by decide, rfl⟩

/-- Claim C1 (amended): for every filter mapping whose keys contain no `?`
character, the WHERE clause returned by `buildWhereClause` contains exactly
as many `?` placeholders as there are entries in the returned parameter
list, and positionally so: every per-key condition's placeholder count
equals the length of the parameter sublist it contributes.  A key with an
`is_null`/`is_not_null` operator contributes the unary predicate
`field IS [NOT] NULL` and zero parameters regardless of its value, and an
empty filter mapping yields an empty clause and an empty parameter list. -/
theorem whereClause_placeholder_alignment (filters : Filters)
    (h : ∀ p ∈ filters, countQ p.1 = 0) :
    countQ (buildWhereClause filters).1 = (buildWhereClause filters).2.length ∧
    (∀ c ∈ clauseConds filters, countQ c.1 = c.2.length) ∧
    (∀ (field op : String) (v : Value), op = "IS NULL" ∨ op = "IS NOT NULL" →
      conditionFor field op v = (field ++ " " ++ op, [])) ∧
    buildWhereClause [] = ("", []) := by
  refine ⟨?_, countQ_clauseConds filters h, ?_, rfl⟩
  · by_cases hemp : filters.length = 0
    · rw [List.length_eq_zero] at hemp
      subst hemp
      rfl
    · rw [buildWhereClause_eq filters hemp]
      have hwhere : countQ " WHERE " = 0 := by decide
      rw [countQ_append, hwhere,
        countQ_intercalateGo " AND " (by decide) ((clauseConds filters).map Prod.fst)]
      simp only [List.length_flatten, List.map_map, Nat.zero_add]
      exact congrArg List.sum
        (List.map_congr_left (fun c hc => countQ_clauseConds filters h c hc))
  · intro field op v hop
    unfold conditionFor
    rw [if_pos hop]

/-- Claim C1 (witness): the amended alignment theorem applied to the concrete
filter `{age__gte: 30, name__is_null: true}`, whose keys contain no `?`. -/
theorem whereClause_placeholder_alignment_witness :
    countQ (buildWhereClause
      [("age__gte", Value.vInt 30), ("name__is_null", Value.vBool true)]).1 =
    (buildWhereClause
      [("age__gte", Value.vInt 30), ("name__is_null", Value.vBool true)]).2.length :=
  (whereClause_placeholder_alignment
    [("age__gte", Value.vInt 30), ("name__is_null", Value.vBool true)]
    (by decide)).1

/-- Claim C2: `buildWhereClause` is deterministic: for any two association lists
holding the same key-value pairs (a permutation with pairwise-distinct keys,
which is what two iterations of the same Go map can produce), the clause
text and the parameter list are identical, because keys are sorted before
processing. -/
theorem buildWhereClause_deterministic (l₁ l₂ : Filters)
    (hperm : List.Perm l₁ l₂) (hnd : (l₁.map Prod.fst).Nodup) :
    buildWhereClause l₁ = buildWhereClause l₂ := by
  by_cases h : l₁.length = 0
  · have h₂ : l₂.length = 0 := by rw [← hperm.length_eq]; exact h
    unfold buildWhereClause
    rw [if_pos h, if_pos h₂]
  · have h₂ : l₂.length ≠ 0 := by rw [← hperm.length_eq]; exact h
    rw [buildWhereClause_eq l₁ h, buildWhereClause_eq l₂ h₂,
      clauseConds_perm l₁ l₂ hperm hnd]

/-- Claim C2 (witness): the two enumeration orders of the map
`{name: "John", age__gt: 30}` compile identically. -/
theorem buildWhereClause_deterministic_witness :
    buildWhereClause [("name", Value.vStr "John"), ("age__gt", Value.vInt 30)] =
      buildWhereClause [("age__gt", Value.vInt 30), ("name", Value.vStr "John")] :=
  buildWhereClause_deterministic _ _ (List.Perm.swap _ _ _) (by decide)

/-- Claim C3 (counterexample): for the key `a__b`, whose suffix `b` is not a
recognized operator, the code uses the text before the separator (`a`) as
the field — not the full key, as the claim states: the compiled clause is
` WHERE a = ?`, not ` WHERE a__b = ?`. -/
theorem deriveFieldOp_unrecognized_cx :
    buildWhereClause [("a__b", Value.vInt 1)] = (" WHERE a = ?", [Value.vInt 1]) ∧
      (deriveFieldOp "a__b").1 ≠ "a__b" := by
  constructor
  · rfl
  · decide

/-- Claim C3 (amended): operator derivation is pure and total.  A key without the
`__` separator maps to itself with the equality operator; a key of the form
`f ++ "__" ++ s` (with `f` free of `__` and not ending in `_`, and `s` free
of `__`) maps to field `f` with the operator determined by `s`; and an
unrecognized suffix yields the equality operator — with the pre-separator
prefix (not the full key) as the field. -/
theorem deriveFieldOp_split_characterization :
    (∀ key : String, hasUU key.data = false → deriveFieldOp key = (key, "=")) ∧
    (∀ f s : String, hasUU (f.data ++ ['_']) = false → hasUU s.data = false →
      deriveFieldOp (f ++ "__" ++ s) = (f, opOfSuffix s)) ∧
    (∀ s : String, s ∉ (["like", "ilike", "not_like", "gt", "lt", "gte", "lte",
        "in", "not", "is_null", "is_not_null"] : List String) →
      opOfSuffix s = "=") := by
  refine ⟨?_, ?_, ?_⟩
  · intro key h
    unfold deriveFieldOp
    rw [splitUU_eq_single key.data h]
  · intro f s hf hs
    unfold deriveFieldOp
    have hdata : (f ++ "__" ++ s).data = f.data ++ '_' :: '_' :: s.data := by
      simp [String.data_append]
    rw [hdata, splitUU_append f.data s.data hf, splitUU_eq_single s.data hs]
  · intro s hs
    unfold opOfSuffix
    split <;> simp_all

/-- Claim C3 (witness): the characterization applied at the concrete keys
`status` (no separator), `user__name` (unrecognized suffix `name`) and
`age__gte` (recognized suffix). -/
theorem deriveFieldOp_split_characterization_witness :
    deriveFieldOp "status" = ("status", "=") ∧
    deriveFieldOp "user__name" = ("user", "=") ∧
    deriveFieldOp "age__gte" = ("age", ">=") := by
  refine ⟨deriveFieldOp_split_characterization.1 "status" (by decide), ?_, ?_⟩
  · have h := deriveFieldOp_split_characterization.2.1 "user" "name"
      (by decide) (by decide)
    exact h
  · have h := deriveFieldOp_split_characterization.2.1 "age" "gte"
      (by decide) (by decide)
    exact h

/-! ### Single-key clause lemmas -/

theorem buildWhereClause_single (key : String) (v : Value) :
    buildWhereClause [(key, v)] =
      (" WHERE " ++ (conditionFor (deriveFieldOp key).1 (deriveFieldOp key).2 v).1,
       (conditionFor (deriveFieldOp key).1 (deriveFieldOp key).2 v).2) := by
  unfold buildWhereClause clauseConds
  simp [lookupKV, intercalateGo, List.insertionSort, List.orderedInsert]

theorem deriveFieldOp_append (f sfx : String)
    (hf : hasUU (f.data ++ ['_']) = false) (hs : hasUU sfx.data = false) :
    deriveFieldOp (f ++ "__" ++ sfx) = (f, opOfSuffix sfx) := by
  unfold deriveFieldOp
  have hdata : (f ++ "__" ++ sfx).data = f.data ++ '_' :: '_' :: sfx.data := by
    simp [String.data_append]
  rw [hdata, splitUU_append f.data sfx.data hf, splitUU_eq_single sfx.data hs]

theorem suffix_single_clause (f sfx : String) (v : Value)
    (hf : hasUU (f.data ++ ['_']) = false) (hs : hasUU sfx.data = false) :
    buildWhereClause [(f ++ "__" ++ sfx, v)] =
      (" WHERE " ++ (conditionFor f (opOfSuffix sfx) v).1,
       (conditionFor f (opOfSuffix sfx) v).2) := by
  rw [buildWhereClause_single, deriveFieldOp_append f sfx hf hs]

/-- Claim C6 (counterexample): a value that is not a comparable scalar (here a
`[]any` slice) under the `__gt` suffix does not make compilation fail —
`buildWhereClause` has no error path at all and still emits ` WHERE age > ?`
with the slice itself as the bound parameter. -/
theorem numeric_comparison_no_error_cx :
    buildWhereClause [("age__gt", Value.vListAny [])] =
      (" WHERE age > ?", [Value.vListAny []]) := rfl

/-- Claim C6 (amended): for every field and every value — of any shape, with no
type check and no possible error — the numeric comparison suffixes
`__gt`/`__gte`/`__lt`/`__lte` emit `field OP ?` and append the raw value as
the single parameter. -/
theorem numeric_comparison_appends_value (f : String) (v : Value)
    (hf : hasUU (f.data ++ ['_']) = false) :
    buildWhereClause [(f ++ "__gt", v)] = (" WHERE " ++ f ++ " > ?", [v]) ∧
    buildWhereClause [(f ++ "__gte", v)] = (" WHERE " ++ f ++ " >= ?", [v]) ∧
    buildWhereClause [(f ++ "__lt", v)] = (" WHERE " ++ f ++ " < ?", [v]) ∧
    buildWhereClause [(f ++ "__lte", v)] = (" WHERE " ++ f ++ " <= ?", [v]) := by
  refine ⟨?_, ?_, ?_, ?_⟩
  · have key_eq : (f ++ "__gt" : String) = f ++ "__" ++ "gt" := by
      rw [String.append_assoc]; rfl
    have hc : conditionFor f ">" v = (f ++ " " ++ ">" ++ " ?", [v]) := rfl
    rw [key_eq, suffix_single_clause f "gt" v hf (by decide),
      show opOfSuffix "gt" = ">" from rfl, hc]
    refine Prod.ext ?_ rfl
    apply String.ext
    simp only [String.data_append, List.append_assoc]
    rfl
  · have key_eq : (f ++ "__gte" : String) = f ++ "__" ++ "gte" := by
      rw [String.append_assoc]; rfl
    have hc : conditionFor f ">=" v = (f ++ " " ++ ">=" ++ " ?", [v]) := rfl
    rw [key_eq, suffix_single_clause f "gte" v hf (by decide),
      show opOfSuffix "gte" = ">=" from rfl, hc]
    refine Prod.ext ?_ rfl
    apply String.ext
    simp only [String.data_append, List.append_assoc]
    rfl
  · have key_eq : (f ++ "__lt" : String) = f ++ "__" ++ "lt" := by
      rw [String.append_assoc]; rfl
    have hc : conditionFor f "<" v = (f ++ " " ++ "<" ++ " ?", [v]) := rfl
    rw [key_eq, suffix_single_clause f "lt" v hf (by decide),
      show opOfSuffix "lt" = "<" from rfl, hc]
    refine Prod.ext ?_ rfl
    apply String.ext
    simp only [String.data_append, List.append_assoc]
    rfl
  · have key_eq : (f ++ "__lte" : String) = f ++ "__" ++ "lte" := by
      rw [String.append_assoc]; rfl
    have hc : conditionFor f "<=" v = (f ++ " " ++ "<=" ++ " ?", [v]) := rfl
    rw [key_eq, suffix_single_clause f "lte" v hf (by decide),
      show opOfSuffix "lte" = "<=" from rfl, hc]
    refine Prod.ext ?_ rfl
    apply String.ext
    simp only [String.data_append, List.append_assoc]
    rfl

/-- Claim C6 (witness): the amended theorem applied at field `price` with a
string value under `__lte`. -/
theorem numeric_comparison_appends_value_witness :
    buildWhereClause [("price__lte", Value.vStr "oops")] =
      (" WHERE price <= ?", [Value.vStr "oops"]) := by
  have h := numeric_comparison_appends_value "price" (Value.vStr "oops") (by decide)
  exact h.2.2.2

/-- Claim C9: an `__in` key whose value is any slice shape (`[]any`, `[]int`,
`[]string`, or another slice reached via reflection, with elements `es`)
compiles to `field IN (...)` with one `?` per element in the original
order, and the parameter list is exactly the element list in that order. -/
theorem inSuffix_slice_placeholders (f : String) (v : Value) (es : List Value)
    (hf : hasUU (f.data ++ ['_']) = false) (hv : elemsOfSlice v = some es) :
    buildWhereClause [(f ++ "__in", v)] =
      (" WHERE " ++ f ++ " IN (" ++
        intercalateGo ", " (es.map fun _ => "?") ++ ")", es) := by
  have key_eq : (f ++ "__in" : String) = f ++ "__" ++ "in" := by
    rw [String.append_assoc]; rfl
  have hc : conditionFor f "IN" v =
      (f ++ " " ++ "IN" ++ " (" ++
        intercalateGo ", " (es.map fun _ => "?") ++ ")", es) := by
    unfold conditionFor
    rw [if_neg (by decide), if_neg (by decide), if_pos rfl, hv]
  rw [key_eq, suffix_single_clause f "in" v hf (by decide),
    show opOfSuffix "in" = "IN" from rfl, hc]
  refine Prod.ext ?_ rfl
  apply String.ext
  simp only [String.data_append, List.append_assoc]
  rfl

/-- Claim C9 (witness): `{age__in: []int{25, 35}}` compiles to two placeholders
and the two elements, in order. -/
theorem inSuffix_slice_placeholders_witness :
    buildWhereClause [("age__in", Value.vListInt [25, 35])] =
      (" WHERE age IN (?, ?)", [Value.vInt 25, Value.vInt 35]) := by
  have h := inSuffix_slice_placeholders "age" (Value.vListInt [25, 35])
    [Value.vInt 25, Value.vInt 35] (by decide) rfl
  exact h

/-- Claim C10: an `__in` key whose value is not a slice at all does not fail:
the clause degrades to `field IN (?)` with a single placeholder and the
value itself as the single parameter. -/
theorem inSuffix_nonslice_single (f : String) (v : Value)
    (hf : hasUU (f.data ++ ['_']) = false) (hv : elemsOfSlice v = none) :
    buildWhereClause [(f ++ "__in", v)] = (" WHERE " ++ f ++ " IN (?)", [v]) := by
  have key_eq : (f ++ "__in" : String) = f ++ "__" ++ "in" := by
    rw [String.append_assoc]; rfl
  have hc : conditionFor f "IN" v = (f ++ " " ++ "IN" ++ " (?)", [v]) := by
    unfold conditionFor
    rw [if_neg (by decide), if_neg (by decide), if_pos rfl, hv]
  rw [key_eq, suffix_single_clause f "in" v hf (by decide),
    show opOfSuffix "in" = "IN" from rfl, hc]
  refine Prod.ext ?_ rfl
  apply String.ext
  simp only [String.data_append, List.append_assoc]
  rfl

/-- Claim C10 (witness): `{status__in: 5}` compiles to a single placeholder with
`5` as the single parameter. -/
theorem inSuffix_nonslice_single_witness :
    buildWhereClause [("status__in", Value.vInt 5)] =
      (" WHERE status IN (?)", [Value.vInt 5]) := by
  have h := inSuffix_nonslice_single "status" (Value.vInt 5) (by decide) rfl
  exact h

/-! ### Batch update (C4) -/

theorem updateManyLoop_invalid_error {σ : Type}
    (exec : σ → String → List Value → σ × Int) (tbl : String) (now : Value) :
    ∀ (fd : List EntityFieldsToUpdate) (tx : σ) (i : Nat) (m mo : Int),
      (∃ fb ∈ fd, fb.Filter = [] ∨ fb.Fields = []) →
      ∃ msg, updateManyLoop exec tbl now tx i m mo fd = .error msg := by
  intro fd
  induction fd with
  | nil =>
    intro tx i m mo h
    simp at h
  | cons fb rest ih =>
    intro tx i m mo h
    rw [updateManyLoop]
    by_cases h1 : fb.Filter.length = 0
    · exact ⟨_, by rw [if_pos h1]⟩
    · rw [if_neg h1]
      by_cases h2 : fb.Fields.length = 0
      · exact ⟨_, by rw [if_pos h2]⟩
      · rw [if_neg h2]
        rcases h with ⟨fb', hmem, hinv⟩
        rcases List.mem_cons.mp hmem with heq | hmem'
        · subst heq
          rcases hinv with h | h
          · exact absurd (by rw [h]; rfl) h1
          · exact absurd (by rw [h]; rfl) h2
        · exact ih _ _ _ _ ⟨fb', hmem', hinv⟩

/-- Claim C4: if any entry of the batch has an empty `Filter` or an empty
`Fields` mapping, `UpdateMany` fails with an error (the code's validation
message) and the database state returned to the caller is the initial one:
the single enclosing transaction is rolled back, so statements already
issued for earlier entries do not survive. -/
theorem updateMany_validation_rolls_back {σ : Type}
    (exec : σ → String → List Value → σ × Int) (tbl : String) (now : Value)
    (db : σ) (fd : List EntityFieldsToUpdate)
    (h : ∃ fb ∈ fd, fb.Filter = [] ∨ fb.Fields = []) :
    (∃ msg, (UpdateMany exec tbl now db fd).1 = .error msg) ∧
      (UpdateMany exec tbl now db fd).2 = db := by
  obtain ⟨fb, hmem, _⟩ := h
  have hne : fd.length ≠ 0 := by
    cases fd with
    | nil => simp at hmem
    | cons a l => simp
  obtain ⟨msg, hloop⟩ := updateManyLoop_invalid_error exec tbl now fd db 0 0 0
    ⟨fb, hmem, ‹_›⟩
  unfold UpdateMany
  rw [if_neg hne, hloop]
  exact ⟨⟨msg, rfl⟩, rfl⟩

/-- Claim C4 (witness): a two-entry batch whose second entry has an empty filter,
run against a counter-state driver that applies every statement: the call
errors and the returned state is the initial `0`, although the first entry
had already executed inside the transaction. -/
theorem updateMany_validation_rolls_back_witness :
    (∃ msg, (UpdateMany (σ := Int) (fun s _ _ => (s + 1, 1)) "users" Value.vNull 0
      [⟨[("a", Value.vInt 1)], [("x", Value.vInt 2)]⟩,
       ⟨[], [("x", Value.vInt 2)]⟩]).1 = .error msg) ∧
    (UpdateMany (σ := Int) (fun s _ _ => (s + 1, 1)) "users" Value.vNull 0
      [⟨[("a", Value.vInt 1)], [("x", Value.vInt 2)]⟩,
       ⟨[], [("x", Value.vInt 2)]⟩]).2 = 0 :=
  updateMany_validation_rolls_back (fun s _ _ => (s + 1, 1)) "users" Value.vNull 0
    [⟨[("a", Value.vInt 1)], [("x", Value.vInt 2)]⟩, ⟨[], [("x", Value.vInt 2)]⟩]
    ⟨⟨[], [("x", Value.vInt 2)]⟩,
      List.mem_cons_of_mem _ (List.mem_cons_self _ _), Or.inl rfl⟩

/-! ### Transactions (C5) -/

theorem isErr_refl (e : GoErr) : e.isErr e = true := by
  unfold GoErr.isErr
  rw [if_pos rfl]

theorem isErr_wrapped (p s : String) (e t : GoErr) (h : e.isErr t = true) :
    (GoErr.wrapped p e s).isErr t = true := by
  unfold GoErr.isErr
  by_cases hc : GoErr.wrapped p e s = t
  · rw [if_pos hc]
  · rw [if_neg hc]
    exact h

/-- Claim C5 (counterexample): when the unit of work fails with `boom`, the error
returned by `WithTransaction` is the wrapper produced by
`fmt.Errorf("transaction error: %w", err)` — not the original error value
unmodified, as the claim states. -/
theorem withTransaction_error_wrapped_cx :
    (withTransaction (α := Unit) none (.error (.base "boom")) none none).2 =
      .error (.wrapped "transaction error: " (.base "boom") "") ∧
    GoErr.wrapped "transaction error: " (.base "boom") "" ≠ .base "boom" :=
  ⟨rfl, by decide⟩

/-- Claim C5 (amended): when the unit of work returns an error, the transaction
is rolled back and the returned error wraps the original cause — the
original error remains recoverable through the unwrap chain (`errors.Is`) —
rather than being swallowed or replaced; if the rollback itself also fails,
the rollback failure's rendered message is combined with the wrapped
original cause, not substituted for it. -/
theorem withTransaction_rollback_wraps_cause {α : Type}
    (fnRes : Except GoErr α) (err : GoErr)
    (rollbackErr commitErr : Option GoErr) (h : fnRes = .error err) :
    (withTransaction none fnRes rollbackErr commitErr).1 = .rolledBack ∧
    ∃ e, (withTransaction none fnRes rollbackErr commitErr).2 = .error e ∧
      e.isErr err = true ∧
      (∀ rbErr, rollbackErr = some rbErr →
        e = .wrapped "transaction error: " err
              (", rollback error: " ++ rbErr.render)) ∧
      (rollbackErr = none → e = .wrapped "transaction error: " err "") := by
  subst h
  cases rollbackErr with
  | none =>
    refine ⟨rfl, .wrapped "transaction error: " err "", rfl,
      isErr_wrapped _ _ _ _ (isErr_refl err), ?_, fun _ => rfl⟩
    intro rbErr hcontra
    exact absurd hcontra (by simp)
  | some rbErr =>
    refine ⟨rfl, .wrapped "transaction error: " err
        (", rollback error: " ++ rbErr.render), rfl,
      isErr_wrapped _ _ _ _ (isErr_refl err), ?_, ?_⟩
    · intro rb hrb
      injection hrb with hrb
      rw [hrb]
    · intro hcontra
      exact absurd hcontra (by simp)

/-- Claim C5 (witness): the amended theorem at the concrete failing unit of work
`boom` with a failing rollback `rb failed`. -/
theorem withTransaction_rollback_wraps_cause_witness :
    (withTransaction (α := Unit) none (.error (.base "boom"))
      (some (.base "rb failed")) none).1 = .rolledBack ∧
    (withTransaction (α := Unit) none (.error (.base "boom"))
      (some (.base "rb failed")) none).2 =
      .error (.wrapped "transaction error: " (.base "boom")
        ", rollback error: rb failed") := by
  have h := withTransaction_rollback_wraps_cause (α := Unit)
    (.error (.base "boom")) (.base "boom") (some (.base "rb failed")) none rfl
  obtain ⟨h1, e, h2, h3, h4, h5⟩ := h
  refine ⟨h1, ?_⟩
  rw [h2, h4 (.base "rb failed") rfl]
  rfl

/-! ### Upsert conflict filters (C7) -/

/-- Claim C7: evaluation of the upsert conflict-key defaults at the failing
input.  The SQL store's default conflict field is the configured primary
key, as the claim says; but `mongoStore.Upsert` defaults to
`{UpsertFieldKey: "_id", UpsertBsonKey: "ID"}` — the two keys are swapped
relative to `mongoStore.UpsertMany`'s default `{UpsertFieldKey: "ID",
UpsertBsonKey: "_id"}` — so the reflection lookup of a struct field named
`_id` fails and the call errors instead of filtering `_id` by the entity's
`ID` value (which is exactly what `UpsertMany` produces). -/
theorem mongoUpsert_default_filter_eval :
    mongoUpsertFilter (Value.vDoc [("ID", Value.vStr "abc")]) [] =
      .error "invalid upsert field name from _id" ∧
    mongoUpsertManyFilter (Value.vDoc [("ID", Value.vStr "abc")]) [] =
      .ok [("_id", Value.vStr "abc")] ∧
    sqlConflictFields "id" [] = ["id"] :=
  ⟨rfl, rfl, rfl⟩

/-! ### Find options (C8) -/

/-- Claim C8: `Initialize` normalizes a `Page` below 1 to 1, replaces an invalid
(negative) `Limit` with the default 10, defaults `SortBy` to `createdAt`
and `OrderBy` to `ASC`, and leaves a `Limit` of 0 intact, in which case
`FindAll` builds the query with no LIMIT/OFFSET pagination at all. -/
theorem initFindOptions_eq (o : FindOptions) :
    initFindOptions o =
      ⟨if o.Page < 1 then 1 else o.Page,
       if o.Limit < 0 then 10 else o.Limit,
       if o.OrderBy = "" then "ASC" else o.OrderBy,
       if o.SortBy = "" then "createdAt" else o.SortBy⟩ := by
  obtain ⟨P, L, OB, SB⟩ := o
  unfold initFindOptions
  by_cases h1 : P < 1 <;> by_cases h2 : L < 0 <;> by_cases h3 : SB = "" <;>
    by_cases h4 : OB = "" <;> simp [h1, h2, h3, h4]

theorem findOptions_defaults (o : FindOptions) :
    (initFindOptions o).Page = (if o.Page < 1 then 1 else o.Page) ∧
    (initFindOptions o).Limit = (if o.Limit < 0 then 10 else o.Limit) ∧
    (initFindOptions o).SortBy = (if o.SortBy = "" then "createdAt" else o.SortBy) ∧
    (initFindOptions o).OrderBy = (if o.OrderBy = "" then "ASC" else o.OrderBy) ∧
    (o.Limit = 0 → ∀ (drv : DatabaseDriver) (tbl : String) (f : Filters),
      findAllQuery drv tbl f o =
        ("SELECT * FROM " ++ tbl ++ (buildWhereClause f).1,
         (buildWhereClause f).2)) := by
  refine ⟨by rw [initFindOptions_eq], by rw [initFindOptions_eq],
    by rw [initFindOptions_eq], by rw [initFindOptions_eq], ?_⟩
  intro hL drv tbl f
  have hlim : (initFindOptions o).Limit = 0 := by
    rw [initFindOptions_eq]
    simp [hL]
  simp only [findAllQuery, hlim]
  simp

/-- Claim C8 (witness): zero-valued options normalize to page 1, limit 0
(unbounded), sort `createdAt` ascending, and `FindAll` on SQLite with an
empty filter builds a plain unpaginated select. -/
theorem findOptions_defaults_witness :
    (initFindOptions ⟨0, 0, "", ""⟩).Page = 1 ∧
    (initFindOptions ⟨0, 0, "", ""⟩).Limit = 0 ∧
    (initFindOptions ⟨0, 0, "", ""⟩).SortBy = "createdAt" ∧
    (initFindOptions ⟨0, 0, "", ""⟩).OrderBy = "ASC" ∧
    findAllQuery .sqlite "users" [] ⟨0, 0, "", ""⟩ = ("SELECT * FROM users", []) := by
  have h := findOptions_defaults ⟨0, 0, "", ""⟩
  refine ⟨by rw [h.1]; decide, by rw [h.2.1]; decide,
    by rw [h.2.2.1]; rfl, by rw [h.2.2.2.1]; rfl, ?_⟩
  have h5 := h.2.2.2.2 rfl DatabaseDriver.sqlite "users" []
  exact h5

end GoDbStore
